import Mathlib

/-!
Verification of the HVD (Hilbert Vibration Decomposition) core of the
`polyfit` repository, as implemented in `hilbert.py`.

Python floats are modelled as elements of a linear ordered field (rationals
for the purely arithmetic routines, so that concrete runs can be evaluated;
real numbers for the routines involving `sin`, `atan2` and `π`).  Point lists
are lists of pairs.  Each definition below is a direct translation of the
corresponding function of `hilbert.py`; the doc comment names its source.
The file dumps performed by `_write_points` are I/O side effects with no
influence on the returned values and are not part of the embedding.
-/

namespace Polyfit

/-- Constant `_TRAPEZOID_THRESHOLD = 0.0001` of `hilbert.py`. -/
def TRAPEZOID_THRESHOLD {α : Type} [LinearOrderedField α] : α := 1 / 10000

/-- Trapezoid contribution `(p1[0] - p0[0]) * (p1[1] + p0[1]) * 0.5` of
`_def_integrate` (line 157 of `hilbert.py`). -/
def trapezoidArea {α : Type} [LinearOrderedField α] (p0 p1 : α × α) : α :=
  (p1.1 - p0.1) * (p1.2 + p0.2) * (1 / 2)

/-- Simpson contribution `(p2[0] - p0[0]) / 6 * (p0[1] + 4 * p1[1] + p2[1])`
of `_def_integrate` (line 160 of `hilbert.py`). -/
def simpsonArea {α : Type} [LinearOrderedField α] (p0 p1 p2 : α × α) : α :=
  (p2.1 - p0.1) / 6 * (p0.2 + 4 * p1.2 + p2.2)

/-- The loop `for i in range(l - 1)` of `_def_integrate` (lines 145-160 of
`hilbert.py`).  `fuel` is the number of loop iterations still to run
(`l - 1 - i`), `i` is the loop index, and `skip` records `not use_trapezoid`
at the top of the iteration: `skip = true` means the previous iteration used
the Simpson rule, so this iteration only resets the flag and continues. -/
def integLoop {α : Type} [LinearOrderedField α] (data : List (α × α)) (l : ℕ) :
    ℕ → ℕ → Bool → α
  | 0, _, _ => 0
  | fuel + 1, i, skip =>
    if skip then
      integLoop data l fuel (i + 1) false
    else
      let p0 := data.getD i (0, 0)
      let p1 := data.getD (i + 1) (0, 0)
      if i + 2 ≥ l then
        trapezoidArea p0 p1 + integLoop data l fuel (i + 1) false
      else
        let p2 := data.getD (i + 2) (0, 0)
        if |p1.2 * 2 - p0.1 - p2.1| > TRAPEZOID_THRESHOLD then
          trapezoidArea p0 p1 + integLoop data l fuel (i + 1) false
        else
          simpsonArea p0 p1 p2 + integLoop data l fuel (i + 1) true

/-- Function `_def_integrate(data)` of `hilbert.py` (lines 128-161): hybrid
Simpson/trapezoid integration.  The loop starts at `i = 0` with
`use_trapezoid = True` (so the first iteration is never skipped) and runs
`l - 1` iterations. -/
def def_integrate {α : Type} [LinearOrderedField α] (data : List (α × α)) : α :=
  integLoop data data.length (data.length - 1) 0 false

/-- Function `_parallelize(count, uniforms, func, pool)` of `hilbert.py`
(lines 103-126).  The uniforms tuple is modelled as a single value of type
`α`, and a `multiprocessing.Pool` is modelled by its `starmap` method: a
function taking the kernel and the built argument list
`[(i, *uniforms) for i in range(count)]` and returning a result list.
`none` models `pool == None`, in which case the list comprehension
`[func(*arg) for arg in args]` runs sequentially in order. -/
def parallelize {α β : Type} (count : ℕ) (uniforms : α) (func : ℕ → α → β)
    (pool : Option ((ℕ → α → β) → List (ℕ × α) → List β)) : List β :=
  match pool with
  | some starmap => starmap func ((List.range count).map fun i => (i, uniforms))
  | none => ((List.range count).map fun i => (i, uniforms)).map fun a => func a.1 a.2

/-- The documented contract of `multiprocessing.Pool.starmap` (Python
standard library, external to this repository): it applies the function to
every argument tuple and returns the results in argument order. -/
def StarmapContract {α β : Type} (starmap : (ℕ → α → β) → List (ℕ × α) → List β) : Prop :=
  ∀ f args, starmap f args = args.map fun a => f a.1 a.2

/-- A modelled pool argument is well behaved when it is either absent or its
starmap satisfies the library contract. -/
def PoolOK {α β : Type} : Option ((ℕ → α → β) → List (ℕ × α) → List β) → Prop
  | none => True
  | some s => StarmapContract s

/-- Constant `_SINC_EPSILON = pow(10, -12)` of `hilbert.py`. -/
noncomputable def SINC_EPSILON : ℝ := 1 / 10 ^ 12

/-- Constant `_HILBERT_EPSILON = pow(10, -12)` of `hilbert.py`. -/
noncomputable def HILBERT_EPSILON : ℝ := 1 / 10 ^ 12

/-- Constant `_ORIG_IF_LOW_PASS_CUTOFF = 0.001` of `hilbert.py`. -/
noncomputable def ORIG_IF_LOW_PASS_CUTOFF : ℝ := 1 / 1000

/-- Constant `_PROJ_LOW_PASS_CUTOFF = 0.02` of `hilbert.py`. -/
noncomputable def PROJ_LOW_PASS_CUTOFF : ℝ := 1 / 50

/-- The expression `sorted(data, key=lambda p: p[0])` of `hilbert.py` (lines
32 and 71): stable sort of the points by first component. -/
noncomputable def sortPoints (data : List (ℝ × ℝ)) : List (ℝ × ℝ) :=
  List.insertionSort (fun p q => p.1 ≤ q.1) data

/-- The list comprehension
`[(x, y / (t - x)) for x, y in data if abs(t - x) > _HILBERT_EPSILON]`
of `_hilbert_kernel` (lines 44-48 of `hilbert.py`). -/
noncomputable def pv_integrand (t : ℝ) : List (ℝ × ℝ) → List (ℝ × ℝ)
  | [] => []
  | p :: rest =>
    if |t - p.1| > HILBERT_EPSILON then
      (p.1, p.2 / (t - p.1)) :: pv_integrand t rest
    else
      pv_integrand t rest

/-- Function `_hilbert_kernel(i, data)` of `hilbert.py` (lines 34-48). -/
noncomputable def hilbert_kernel (i : ℕ) (data : List (ℝ × ℝ)) : ℝ × ℝ :=
  let t := (data.getD i (0, 0)).1
  (t, def_integrate (pv_integrand t data) / Real.pi)

/-- Function `hilbert(data, pool)` of `hilbert.py` (lines 17-32). -/
noncomputable def hilbert (data : List (ℝ × ℝ))
    (pool : Option ((ℕ → List (ℝ × ℝ) → ℝ × ℝ) →
      List (ℕ × List (ℝ × ℝ)) → List (ℝ × ℝ))) : List (ℝ × ℝ) :=
  parallelize data.length (sortPoints data) hilbert_kernel pool

/-- Function `_sinc_filter(x, cutoff)` of `hilbert.py` (lines 295-305). -/
noncomputable def sinc_filter (x cutoff : ℝ) : ℝ :=
  if |x| < SINC_EPSILON then 2 * cutoff
  else Real.sin (2 * cutoff * Real.pi * x) / (Real.pi * x)

/-- Function `_low_pass_kernel(i, data, cutoff)` of `hilbert.py` (lines
187-195); the uniforms tuple `(data, cutoff)` is the second argument. -/
noncomputable def low_pass_kernel (i : ℕ) (u : List (ℝ × ℝ) × ℝ) : ℝ × ℝ :=
  let t := (u.1.getD i (0, 0)).1
  (t, def_integrate (u.1.map fun p => (p.1, p.2 * sinc_filter (t - p.1) u.2)))

/-- Function `_low_pass(data, cutoff, pool)` of `hilbert.py` (lines 173-185). -/
noncomputable def low_pass (data : List (ℝ × ℝ)) (cutoff : ℝ)
    (pool : Option ((ℕ → List (ℝ × ℝ) × ℝ → ℝ × ℝ) →
      List (ℕ × (List (ℝ × ℝ) × ℝ)) → List (ℝ × ℝ))) : List (ℝ × ℝ) :=
  parallelize data.length (data, cutoff) low_pass_kernel pool

/-- The call `math.atan2(y, x)`: the argument of the complex number
`x + y*i`, lying in `(-π, π]`, with `atan2(0, 0) = 0`. -/
noncomputable def atan2 (y x : ℝ) : ℝ := Complex.arg ⟨x, y⟩

/-- Function `_pos_atan2(y, x)` of `hilbert.py` (lines 307-309):
`math.atan2(y, x) + (2 * math.pi if y < 0 else 0)`. -/
noncomputable def pos_atan2 (y x : ℝ) : ℝ :=
  atan2 y x + if y < 0 then 2 * Real.pi else 0

/-- Function `_analytical_phase(real, imag)` of `hilbert.py` (lines 311-331):
`[(x, _pos_atan2(i, r)) for (x, r), (_, i) in zip(real, imag)]`. -/
noncomputable def analytical_phase (real imag : List (ℝ × ℝ)) : List (ℝ × ℝ) :=
  (real.zip imag).map fun q => (q.1.1, pos_atan2 q.2.2 q.1.2)

/-- Python float modulus `a % b` on reals: `a - b * ⌊a / b⌋` (the result has
the sign of the divisor), used in the finite-difference step on line 76 of
`hilbert.py`. -/
noncomputable def pmod (a b : ℝ) : ℝ := a - b * (Int.floor (a / b) : ℝ)

/-- Stages of `hilbert_decomp(data)` of `hilbert.py` (lines 70-78) up to the
instantaneous-frequency series, with the worker pool modelled sequentially
(by `parallelize_eq` below, a pool whose starmap obeys its contract produces
the same lists):
`data = sorted(data, key=lambda p: p[0])`,
`hilbert_data = hilbert(data, pool=pool)`,
`phase = _analytical_phase(data, hilbert_data)`, and
`freq = [(p0[0], (p1[1] - p0[1]) % (2 * math.pi) / (p1[0] - p0[0]))
for p0, p1 in zip(phase, phase[1:])]`. -/
noncomputable def decomp_freq (data : List (ℝ × ℝ)) : List (ℝ × ℝ) :=
  let srt := sortPoints data
  let hilbert_data := hilbert srt none
  let phase := analytical_phase srt hilbert_data
  (phase.zip phase.tail).map fun q =>
    (q.1.1, pmod (q.2.2 - q.1.2) (2 * Real.pi) / (q.2.1 - q.1.1))

/-- Line 81 of `hilbert.py`: the extracted-frequency series actually fed
into the projection stage,
`extracted_freq = [(x, 0.02 + 0.00003 * x) for x, _ in freq]`; the call
`_low_pass(freq, _ORIG_IF_LOW_PASS_CUTOFF, pool=pool)` on line 79 is
commented out. -/
noncomputable def decomp_extracted_freq (data : List (ℝ × ℝ)) : List (ℝ × ℝ) :=
  (decomp_freq data).map fun p => (p.1, 1 / 50 + 3 / 100000 * p.1)

/-- The residual component returned by `hilbert_decomp` (line 101 of
`hilbert.py`): the second element of the returned pair is the literal empty
list `[]`; the comprehension
`[(x, orig - extracted) for (x, orig), (_, extracted) in zip(data, signal)]`
is commented out on the same line. -/
def decomp_residual (data signal : List (ℝ × ℝ)) : List (ℝ × ℝ) :=
  match data, signal with
  | _, _ => []

/-- Shifting the data list by one cell shifts the loop index by one. -/
theorem integLoop_cons {α : Type} [LinearOrderedField α] (p : α × α)
    (data : List (α × α)) (l : ℕ) :
    ∀ (fuel i : ℕ) (skip : Bool),
      integLoop (p :: data) (l + 1) fuel (i + 1) skip = integLoop data l fuel i skip := by
  intro fuel
  induction fuel with
  | zero => intro i skip; rfl
  | succ fuel ih =>
    intro i skip
    rw [integLoop, integLoop]
    cases skip with
    | true => simpa using ih (i + 1) false
    | false =>
      simp only [Bool.false_eq_true, if_false, List.getD_cons_succ]
      have hge : i + 1 + 2 ≥ l + 1 ↔ i + 2 ≥ l := by omega
      by_cases hg : i + 2 ≥ l
      · rw [if_pos (hge.mpr hg), if_pos hg, ih (i + 1) false]
      · rw [if_neg (fun h => hg (hge.mp h)), if_neg hg]
        by_cases hc : |(data.getD (i + 1) (0, 0)).2 * 2 - (data.getD i (0, 0)).1 -
            (data.getD (i + 2) (0, 0)).1| > TRAPEZOID_THRESHOLD
        · rw [if_pos hc, if_pos hc, ih (i + 1) false]
        · rw [if_neg hc, if_neg hc, ih (i + 1) true]

/-- The empty integral is `0` (the loop body never runs). -/
theorem def_integrate_nil {α : Type} [LinearOrderedField α] :
    def_integrate ([] : List (α × α)) = 0 := rfl

/-- A single point integrates to `0` (the loop body never runs). -/
theorem def_integrate_single {α : Type} [LinearOrderedField α] (p : α × α) :
    def_integrate [p] = 0 := rfl

/-- With exactly two points the trapezoid rule is applied once. -/
theorem def_integrate_pair {α : Type} [LinearOrderedField α] (p0 p1 : α × α) :
    def_integrate [p0, p1] = trapezoidArea p0 p1 := by
  show integLoop [p0, p1] 2 1 0 false = trapezoidArea p0 p1
  rw [integLoop]
  norm_num [integLoop]

/-- With a triplet in view whose stability check exceeds the threshold, the
trapezoid rule is applied to `(p0, p1)` and the walk advances by one point. -/
theorem def_integrate_cons_trap {α : Type} [LinearOrderedField α]
    (p0 p1 p2 : α × α) (rest : List (α × α))
    (h : |p1.2 * 2 - p0.1 - p2.1| > TRAPEZOID_THRESHOLD) :
    def_integrate (p0 :: p1 :: p2 :: rest) =
      trapezoidArea p0 p1 + def_integrate (p1 :: p2 :: rest) := by
  show integLoop (p0 :: p1 :: p2 :: rest) (rest.length + 3) (rest.length + 2) 0 false = _
  rw [integLoop]
  have hg : ¬(0 + 2 ≥ rest.length + 3) := by omega
  simp only [Bool.false_eq_true, if_false, if_neg hg, List.getD_cons_zero,
    List.getD_cons_succ]
  rw [if_pos h]
  have := integLoop_cons p0 (p1 :: p2 :: rest) (rest.length + 2) (rest.length + 1) 0 false
  simp only [List.length_cons] at this ⊢
  rw [this]
  rfl

/-- With a triplet in view whose stability check is within the threshold,
the Simpson rule is applied to `(p0, p1, p2)` and the walk advances by two
points: `p1` is skipped and never becomes a left endpoint. -/
theorem def_integrate_cons_simpson {α : Type} [LinearOrderedField α]
    (p0 p1 p2 : α × α) (rest : List (α × α))
    (h : ¬(|p1.2 * 2 - p0.1 - p2.1| > TRAPEZOID_THRESHOLD)) :
    def_integrate (p0 :: p1 :: p2 :: rest) =
      simpsonArea p0 p1 p2 + def_integrate (p2 :: rest) := by
  show integLoop (p0 :: p1 :: p2 :: rest) (rest.length + 3) (rest.length + 2) 0 false = _
  rw [integLoop]
  have hg : ¬(0 + 2 ≥ rest.length + 3) := by omega
  simp only [Bool.false_eq_true, if_false, if_neg hg, List.getD_cons_zero,
    List.getD_cons_succ]
  rw [if_neg h, integLoop]
  simp only [if_true]
  have h1 := integLoop_cons p0 (p1 :: p2 :: rest) (rest.length + 2) rest.length 1 false
  have h2 := integLoop_cons p1 (p2 :: rest) (rest.length + 1) rest.length 0 false
  simp only [List.length_cons] at h1 h2 ⊢
  rw [h1, h2]
  rfl

/-- Under the starmap contract, both branches of `_parallelize` return the
values of the kernel at `0 .. count-1`, in index order. -/
theorem parallelize_eq {α β : Type} (count : ℕ) (uniforms : α) (func : ℕ → α → β)
    (pool : Option ((ℕ → α → β) → List (ℕ × α) → List β)) (hp : PoolOK pool) :
    parallelize count uniforms func pool = (List.range count).map fun i => func i uniforms := by
  cases pool with
  | none => simp [parallelize, List.map_map, Function.comp]
  | some s =>
    have hs : StarmapContract s := hp
    simp [parallelize, hs func, List.map_map, Function.comp]

/-- The principal-value comprehension keeps exactly the points whose distance
from the singularity exceeds `_HILBERT_EPSILON`, then maps them into the
integrand. -/
theorem pv_integrand_eq_filter_map (t : ℝ) (l : List (ℝ × ℝ)) :
    pv_integrand t l =
      (l.filter fun p => decide (|t - p.1| > HILBERT_EPSILON)).map
        fun p => (p.1, p.2 / (t - p.1)) := by
  induction l with
  | nil => rfl
  | cons p rest ih =>
    by_cases h : |t - p.1| > HILBERT_EPSILON
    · simp [pv_integrand, h, ih, List.filter_cons]
    · simp [pv_integrand, h, ih, List.filter_cons]

/-- The shift of `_pos_atan2` is applied exactly when the raw `atan2` value
is negative: `atan2(y, x) < 0` holds exactly when `y < 0`. -/
theorem pos_atan2_eq_shift (y x : ℝ) :
    pos_atan2 y x = atan2 y x + (if atan2 y x < 0 then 2 * Real.pi else 0) := by
  by_cases hy : y < 0
  · have ha : atan2 y x < 0 := Complex.arg_neg_iff.mpr hy
    rw [pos_atan2, if_pos hy, if_pos ha]
  · have ha : ¬atan2 y x < 0 := not_lt.mpr (Complex.arg_nonneg_iff.mpr (not_lt.mp hy))
    rw [pos_atan2, if_neg hy, if_neg ha]

/-- The value of `_pos_atan2` lies in `[0, 2π)`. -/
theorem pos_atan2_mem (y x : ℝ) :
    0 ≤ pos_atan2 y x ∧ pos_atan2 y x < 2 * Real.pi := by
  have harg_le : Complex.arg ⟨x, y⟩ ≤ Real.pi := Complex.arg_le_pi _
  have harg_gt : -Real.pi < Complex.arg ⟨x, y⟩ := Complex.neg_pi_lt_arg _
  have hpi : 0 < Real.pi := Real.pi_pos
  by_cases hy : y < 0
  · have ha : Complex.arg ⟨x, y⟩ < 0 := Complex.arg_neg_iff.mpr hy
    rw [pos_atan2, atan2, if_pos hy]
    constructor <;> linarith
  · have ha : 0 ≤ Complex.arg ⟨x, y⟩ := Complex.arg_nonneg_iff.mpr (not_lt.mp hy)
    rw [pos_atan2, atan2, if_neg hy]
    constructor <;> linarith

/-- The absent pool trivially satisfies the pool contract. -/
theorem poolOK_none {α β : Type} :
    PoolOK (none : Option ((ℕ → α → β) → List (ℕ × α) → List β)) := trivial

/-- The positive `atan2` of the origin is zero, matching
`math.atan2(0, 0) = 0.0`. -/
theorem pos_atan2_zero : pos_atan2 0 0 = 0 := by
  have h0 : (⟨0, 0⟩ : ℂ) = 0 := by
    apply Complex.ext <;> simp
  rw [pos_atan2, atan2, h0, Complex.arg_zero]
  norm_num

/-- The Python float modulus of zero by any divisor is zero. -/
theorem pmod_zero (b : ℝ) : pmod 0 b = 0 := by
  simp [pmod]

/-- A concrete already-sorted three-point list is left unchanged by the
sorting stage. -/
theorem sort3_eval :
    sortPoints [((0 : ℝ), 0), (1, 0), (2, 0)] = [((0 : ℝ), 0), (1, 0), (2, 0)] := by
  norm_num [sortPoints]

/-- A concrete already-sorted two-point list is left unchanged by the
sorting stage. -/
theorem sort2_eval :
    sortPoints [((0 : ℝ), 0), (1, 0)] = [((0 : ℝ), 0), (1, 0)] := by
  norm_num [sortPoints]

/-- The Hilbert transform of the zero signal sampled at x = 0, 1, 2 is the
zero signal at the same coordinates. -/
theorem hilbert3_eval :
    hilbert [((0 : ℝ), 0), (1, 0), (2, 0)] none = [((0 : ℝ), 0), (1, 0), (2, 0)] := by
  rw [hilbert, sort3_eval, parallelize_eq _ _ _ none poolOK_none]
  norm_num [List.range_succ, hilbert_kernel, pv_integrand, HILBERT_EPSILON,
    def_integrate_pair, trapezoidArea]

/-- The Hilbert transform of the zero signal sampled at x = 0, 1 is the zero
signal at the same coordinates. -/
theorem hilbert2_eval :
    hilbert [((0 : ℝ), 0), (1, 0)] none = [((0 : ℝ), 0), (1, 0)] := by
  rw [hilbert, sort2_eval, parallelize_eq _ _ _ none poolOK_none]
  norm_num [List.range_succ, hilbert_kernel, pv_integrand, HILBERT_EPSILON,
    def_integrate_single]

/-- The instantaneous-frequency stage of the decomposition applied to the
zero signal at x = 0, 1, 2 yields the zero frequency series at x = 0, 1. -/
theorem decomp_freq3_eval :
    decomp_freq [((0 : ℝ), 0), (1, 0), (2, 0)] = [((0 : ℝ), 0), (1, 0)] := by
  simp only [decomp_freq]
  rw [sort3_eval, hilbert3_eval]
  norm_num [analytical_phase, pos_atan2_zero, pmod_zero]

/-- The instantaneous-frequency stage of the decomposition applied to the
zero signal at x = 0, 1 yields the zero frequency series at x = 0. -/
theorem decomp_freq2_eval :
    decomp_freq [((0 : ℝ), 0), (1, 0)] = [((0 : ℝ), 0)] := by
  simp only [decomp_freq]
  rw [sort2_eval, hilbert2_eval]
  norm_num [analytical_phase, pos_atan2_zero, pmod_zero]

/-- Low-pass filtering the zero series at x = 0, 1 with the original
instantaneous-frequency cutoff returns the zero series at the same
coordinates. -/
theorem low_pass_zero2_eval :
    low_pass [((0 : ℝ), 0), (1, 0)] ORIG_IF_LOW_PASS_CUTOFF none =
      [((0 : ℝ), 0), (1, 0)] := by
  rw [low_pass, parallelize_eq _ _ _ none poolOK_none]
  norm_num [List.range_succ, low_pass_kernel, def_integrate_pair, trapezoidArea]

/-- C1 divergence: on the input series [(0,0), (1,0), (2,0)] the
extracted-frequency series fed into the projection stage (line 81 of
`hilbert.py`) is the hardcoded ramp [(0, 0.02), (1, 0.02003)], while
low-pass filtering the instantaneous-frequency series at the configured
cutoff `_ORIG_IF_LOW_PASS_CUTOFF` (the commented-out line 79) yields
[(0, 0), (1, 0)]: the two stages disagree, so extracted_freq is not
`LowPassFilter.low_pass(freq, CUTOFF)`. -/
theorem extracted_freq_skips_low_pass_cex :
    decomp_extracted_freq [((0 : ℝ), 0), (1, 0), (2, 0)] =
      [((0 : ℝ), 1 / 50), (1, 1 / 50 + 3 / 100000)] ∧
    low_pass (decomp_freq [((0 : ℝ), 0), (1, 0), (2, 0)]) ORIG_IF_LOW_PASS_CUTOFF none =
      [((0 : ℝ), 0), (1, 0)] ∧
    decomp_extracted_freq [((0 : ℝ), 0), (1, 0), (2, 0)] ≠
      low_pass (decomp_freq [((0 : ℝ), 0), (1, 0), (2, 0)]) ORIG_IF_LOW_PASS_CUTOFF none := by
  have h1 : decomp_extracted_freq [((0 : ℝ), 0), (1, 0), (2, 0)] =
      [((0 : ℝ), 1 / 50), (1, 1 / 50 + 3 / 100000)] := by
    rw [decomp_extracted_freq, decomp_freq3_eval]
    norm_num
  have h2 : low_pass (decomp_freq [((0 : ℝ), 0), (1, 0), (2, 0)])
      ORIG_IF_LOW_PASS_CUTOFF none = [((0 : ℝ), 0), (1, 0)] := by
    rw [decomp_freq3_eval]
    exact low_pass_zero2_eval
  refine ⟨h1, h2, ?_⟩
  rw [h1, h2]
  norm_num

/-- C2: the residual returned by `hilbert_decomp` (line 101) is the literal
empty list: at an input and an extracted signal sharing the x-coordinate 0
the residual is `[]`, not the non-empty `[(0, original.y - extracted.y)]`
the claim requires. -/
theorem residual_empty_cex :
    decomp_residual [((0 : ℝ), 5)] [((0 : ℝ), 3)] = [] ∧
    decomp_residual [((0 : ℝ), 5)] [((0 : ℝ), 3)] ≠ [((0 : ℝ), 5 - 3)] :=
  ⟨rfl, by simp [decomp_residual]⟩

/-- C8: the decomposition pipeline performs no minimum-data rejection: on a
two-point input the embedded stages up to the extracted-frequency series
compute ordinary values instead of raising a dedicated InsufficientData
error (no such error type exists anywhere in the repository). -/
theorem decomp_two_points_proceeds :
    decomp_freq [((0 : ℝ), 0), (1, 0)] = [((0 : ℝ), 0)] ∧
    decomp_extracted_freq [((0 : ℝ), 0), (1, 0)] = [((0 : ℝ), 1 / 50)] := by
  refine ⟨decomp_freq2_eval, ?_⟩
  rw [decomp_extracted_freq, decomp_freq2_eval]
  norm_num

/-- C3 counterexample: on the three-point list `[(0,0), (1,1), (2,0)]` the
stability check is within the threshold, so the Simpson rule is applied to the
triplet, and the accumulated integral (a single Simpson contribution) is not
the claimed `(p2.x - p1.x)/6 * (p0.y + 4*p1.y + p2.y)`: the code divides the
width `p2.x - p0.x` by 6, not `p2.x - p1.x`. -/
theorem simpson_claim_cex :
    ¬(|(1 : ℚ) * 2 - 0 - 2| > TRAPEZOID_THRESHOLD) ∧
    def_integrate [((0 : ℚ), 0), (1, 1), (2, 0)] ≠ ((2 : ℚ) - 1) / 6 * (0 + 4 * 1 + 0) := by
  constructor
  · norm_num [TRAPEZOID_THRESHOLD]
  · rw [def_integrate_cons_simpson ((0 : ℚ), 0) (1, 1) (2, 0) []
      (by norm_num [TRAPEZOID_THRESHOLD])]
    norm_num [simpsonArea, def_integrate_single]

/-- C3 (amended): whenever the Integrator applies the Simpson rule to a
consecutive triplet `(p0, p1, p2)`, the contribution added to the accumulated
integral is `(p2.x - p0.x)/6 * (p0.y + 4*p1.y + p2.y)`, and the walk resumes
at `p2`. -/
theorem simpson_step_spec {α : Type} [LinearOrderedField α]
    (p0 p1 p2 : α × α) (rest : List (α × α))
    (h : ¬(|p1.2 * 2 - p0.1 - p2.1| > TRAPEZOID_THRESHOLD)) :
    def_integrate (p0 :: p1 :: p2 :: rest) =
      (p2.1 - p0.1) / 6 * (p0.2 + 4 * p1.2 + p2.2) + def_integrate (p2 :: rest) :=
  def_integrate_cons_simpson p0 p1 p2 rest h

/-- C3 witness: the amended Simpson step evaluated on a concrete triplet. -/
theorem simpson_step_spec_witness :
    ¬(|(1 : ℚ) * 2 - 0 - 2| > TRAPEZOID_THRESHOLD) ∧
    def_integrate [((0 : ℚ), 0), (1, 1), (2, 0)] =
      ((2 : ℚ) - 0) / 6 * (0 + 4 * 1 + 0) + def_integrate [((2 : ℚ), 0)] := by
  have h : ¬(|(1 : ℚ) * 2 - 0 - 2| > TRAPEZOID_THRESHOLD) := by
    norm_num [TRAPEZOID_THRESHOLD]
  exact ⟨h, simpson_step_spec ((0 : ℚ), 0) (1, 1) (2, 0) [] h⟩

/-- C4: the Integrator walks consecutive triplets choosing the trapezoid rule
exactly when fewer than 3 points remain or when
`|2*p1.y - p0.x - p2.x| > TRAPEZOID_THRESHOLD` (the y-vs-x comparison is the
literal check of the code); the trapezoid contribution is
`(p1.x - p0.x) * (p1.y + p0.y) / 2` and advances the walk by one point, while
after a Simpson step the middle point is skipped and the walk resumes at the
third point, never reconsidering the middle point as a left endpoint. -/
theorem integrate_walk_spec {α : Type} [LinearOrderedField α] :
    (∀ p0 p1 : α × α, def_integrate [p0, p1] = (p1.1 - p0.1) * (p1.2 + p0.2) / 2) ∧
    (∀ (p0 p1 p2 : α × α) (rest : List (α × α)),
      |2 * p1.2 - p0.1 - p2.1| > TRAPEZOID_THRESHOLD →
        def_integrate (p0 :: p1 :: p2 :: rest) =
          (p1.1 - p0.1) * (p1.2 + p0.2) / 2 + def_integrate (p1 :: p2 :: rest)) ∧
    (∀ (p0 p1 p2 : α × α) (rest : List (α × α)),
      ¬(|2 * p1.2 - p0.1 - p2.1| > TRAPEZOID_THRESHOLD) →
        def_integrate (p0 :: p1 :: p2 :: rest) =
          simpsonArea p0 p1 p2 + def_integrate (p2 :: rest)) := by
  refine ⟨fun p0 p1 => ?_, fun p0 p1 p2 rest h => ?_, fun p0 p1 p2 rest h => ?_⟩
  · rw [def_integrate_pair]; unfold trapezoidArea; ring
  · rw [mul_comm 2 p1.2] at h
    rw [def_integrate_cons_trap p0 p1 p2 rest h]; unfold trapezoidArea; ring
  · rw [mul_comm 2 p1.2] at h
    exact def_integrate_cons_simpson p0 p1 p2 rest h

/-- C4 witness: a concrete triplet whose stability check exceeds the
threshold takes the trapezoid branch and advances by one point. -/
theorem integrate_walk_spec_witness :
    (|2 * (1 : ℚ) - 0 - 5| > TRAPEZOID_THRESHOLD) ∧
    def_integrate [((0 : ℚ), 0), (1, 1), (5, 5)] =
      ((1 : ℚ) - 0) * (1 + 0) / 2 + def_integrate [((1 : ℚ), 1), (5, 5)] := by
  have h : |2 * (1 : ℚ) - 0 - 5| > TRAPEZOID_THRESHOLD := by
    norm_num [TRAPEZOID_THRESHOLD]
  exact ⟨h, (integrate_walk_spec (α := ℚ)).2.1 (0, 0) (1, 1) (5, 5) [] h⟩

/-- C10: on a point list with fewer than 2 points (including the empty list,
which the Hilbert kernel can produce when the principal-value rule excludes
every point) the Integrator returns exactly 0 rather than failing. -/
theorem integrate_short_spec {α : Type} [LinearOrderedField α]
    (data : List (α × α)) (h : data.length < 2) : def_integrate data = 0 := by
  match data with
  | [] => rfl
  | [p] => rfl
  | a :: b :: t => exact absurd h (by simp)

/-- C10 witness: the empty list integrates to 0. -/
theorem integrate_short_spec_witness :
    ([] : List (ℚ × ℚ)).length < 2 ∧ def_integrate ([] : List (ℚ × ℚ)) = 0 :=
  ⟨by decide, integrate_short_spec [] (by decide)⟩

/-- C5: the i-th output point of the Hilbert transform sits at the i-th
x-coordinate of the input sorted by x, and its value is `1/π` times the
Integrator integral of the points `(x_j, y_j / (t - x_j))` taken over
exactly those `j` with `|t - x_j| > _HILBERT_EPSILON`. -/
theorem hilbert_spec (data : List (ℝ × ℝ))
    (pool : Option ((ℕ → List (ℝ × ℝ) → ℝ × ℝ) →
      List (ℕ × List (ℝ × ℝ)) → List (ℝ × ℝ)))
    (hp : PoolOK pool) (i : ℕ) (hi : i < data.length) :
    (hilbert data pool).getD i (0, 0) =
      (((sortPoints data).getD i (0, 0)).1,
        (1 / Real.pi) * def_integrate
          (((sortPoints data).filter fun p =>
              decide (|((sortPoints data).getD i (0, 0)).1 - p.1| > HILBERT_EPSILON)).map
            fun p => (p.1, p.2 / (((sortPoints data).getD i (0, 0)).1 - p.1)))) := by
  have hlen : i < ((List.range data.length).map
      (fun j => hilbert_kernel j (sortPoints data))).length := by simpa using hi
  rw [hilbert, parallelize_eq _ _ _ _ hp, List.getD_eq_getElem _ _ hlen,
    List.getElem_map, List.getElem_range]
  simp only [hilbert_kernel]
  rw [pv_integrand_eq_filter_map, one_div, inv_mul_eq_div]

/-- C5 witness: the Hilbert transform formula at a concrete one-point series
with no pool. -/
theorem hilbert_spec_witness :
    PoolOK (none : Option ((ℕ → List (ℝ × ℝ) → ℝ × ℝ) →
      List (ℕ × List (ℝ × ℝ)) → List (ℝ × ℝ))) ∧
    0 < ([((0 : ℝ), 1)] : List (ℝ × ℝ)).length ∧
    (hilbert [((0 : ℝ), 1)] none).getD 0 (0, 0) =
      (((sortPoints [((0 : ℝ), 1)]).getD 0 (0, 0)).1,
        (1 / Real.pi) * def_integrate
          (((sortPoints [((0 : ℝ), 1)]).filter fun p =>
              decide (|((sortPoints [((0 : ℝ), 1)]).getD 0 (0, 0)).1 - p.1| >
                HILBERT_EPSILON)).map
            fun p => (p.1, p.2 / (((sortPoints [((0 : ℝ), 1)]).getD 0 (0, 0)).1 - p.1)))) := by
  refine ⟨trivial, by norm_num, ?_⟩
  exact hilbert_spec [((0 : ℝ), 1)] none trivial 0 (by norm_num)

/-- C6: the i-th output point of the low-pass filter sits at the i-th input
x-coordinate, with value the Integrator integral of
`(x_j, y_j * sinc_filter(t - x_j))` over all points, where the sinc kernel
is `2*cutoff` within `_SINC_EPSILON` of zero and `sin(2π*cutoff*x)/(π*x)`
otherwise. -/
theorem low_pass_spec (data : List (ℝ × ℝ)) (cutoff : ℝ)
    (pool : Option ((ℕ → List (ℝ × ℝ) × ℝ → ℝ × ℝ) →
      List (ℕ × (List (ℝ × ℝ) × ℝ)) → List (ℝ × ℝ)))
    (hp : PoolOK pool) (i : ℕ) (hi : i < data.length) :
    (low_pass data cutoff pool).getD i (0, 0) =
      ((data.getD i (0, 0)).1,
        def_integrate (data.map fun p =>
          (p.1, p.2 * sinc_filter ((data.getD i (0, 0)).1 - p.1) cutoff))) ∧
    (∀ x c : ℝ, sinc_filter x c =
      if |x| < SINC_EPSILON then 2 * c
      else Real.sin (2 * Real.pi * c * x) / (Real.pi * x)) := by
  constructor
  · have hlen : i < ((List.range data.length).map
        (fun j => low_pass_kernel j (data, cutoff))).length := by simpa using hi
    rw [low_pass, parallelize_eq _ _ _ _ hp, List.getD_eq_getElem _ _ hlen,
      List.getElem_map, List.getElem_range]
    simp [low_pass_kernel]
  · intro x c
    rw [sinc_filter]
    have h3 : 2 * c * Real.pi * x = 2 * Real.pi * c * x := by ring
    rw [h3]

/-- C6 witness: the low-pass filter formula at a concrete one-point series
with no pool. -/
theorem low_pass_spec_witness :
    PoolOK (none : Option ((ℕ → List (ℝ × ℝ) × ℝ → ℝ × ℝ) →
      List (ℕ × (List (ℝ × ℝ) × ℝ)) → List (ℝ × ℝ))) ∧
    0 < ([((2 : ℝ), 3)] : List (ℝ × ℝ)).length ∧
    ((low_pass [((2 : ℝ), 3)] 1 none).getD 0 (0, 0) =
      (([((2 : ℝ), 3)].getD 0 (0, 0)).1,
        def_integrate ([((2 : ℝ), 3)].map fun p =>
          (p.1, p.2 * sinc_filter (([((2 : ℝ), 3)].getD 0 (0, 0)).1 - p.1) 1))) ∧
    (∀ x c : ℝ, sinc_filter x c =
      if |x| < SINC_EPSILON then 2 * c
      else Real.sin (2 * Real.pi * c * x) / (Real.pi * x))) := by
  refine ⟨trivial, by norm_num, ?_⟩
  exact low_pass_spec [((2 : ℝ), 3)] 1 none trivial 0 (by norm_num)

/-- C7: on an analytic pair satisfying the AnalyticPair invariant (same
lengths, same x-coordinate at each index), the i-th phase point sits at the
shared x-coordinate, its value is the raw `atan2` of the imaginary over the
real y-value shifted by `2π` exactly when the raw `atan2` value is negative,
and it always lies in `[0, 2π)`. -/
theorem phase_spec (real imag : List (ℝ × ℝ))
    (hlen : real.length = imag.length)
    (_hx : ∀ j : ℕ, j < real.length → (real.getD j (0, 0)).1 = (imag.getD j (0, 0)).1)
    (i : ℕ) (hi : i < real.length) :
    (analytical_phase real imag).getD i (0, 0) =
      ((real.getD i (0, 0)).1,
        atan2 (imag.getD i (0, 0)).2 (real.getD i (0, 0)).2 +
          (if atan2 (imag.getD i (0, 0)).2 (real.getD i (0, 0)).2 < 0
            then 2 * Real.pi else 0)) ∧
    0 ≤ ((analytical_phase real imag).getD i (0, 0)).2 ∧
    ((analytical_phase real imag).getD i (0, 0)).2 < 2 * Real.pi := by
  have hz : i < (real.zip imag).length := by
    rw [List.length_zip, ← hlen, min_self]; exact hi
  have hget : (analytical_phase real imag).getD i (0, 0) =
      ((real.getD i (0, 0)).1, pos_atan2 (imag.getD i (0, 0)).2 (real.getD i (0, 0)).2) := by
    rw [analytical_phase, List.getD_eq_getElem _ _ (by simpa using hz),
      List.getElem_map, List.getElem_zip, List.getD_eq_getElem _ _ hi,
      List.getD_eq_getElem _ _ (hlen ▸ hi)]
  refine ⟨?_, ?_, ?_⟩
  · rw [hget, pos_atan2_eq_shift]
  · rw [hget]; exact (pos_atan2_mem _ _).1
  · rw [hget]; exact (pos_atan2_mem _ _).2

/-- C7 witness: the phase point of a concrete one-point analytic pair. -/
theorem phase_spec_witness :
    ([((5 : ℝ), 1)] : List (ℝ × ℝ)).length = ([((5 : ℝ), 2)] : List (ℝ × ℝ)).length ∧
    (∀ j : ℕ, j < ([((5 : ℝ), 1)] : List (ℝ × ℝ)).length →
      (([((5 : ℝ), 1)] : List (ℝ × ℝ)).getD j (0, 0)).1 =
        (([((5 : ℝ), 2)] : List (ℝ × ℝ)).getD j (0, 0)).1) ∧
    0 < ([((5 : ℝ), 1)] : List (ℝ × ℝ)).length ∧
    ((analytical_phase [((5 : ℝ), 1)] [((5 : ℝ), 2)]).getD 0 (0, 0) =
      ((([((5 : ℝ), 1)] : List (ℝ × ℝ)).getD 0 (0, 0)).1,
        atan2 (([((5 : ℝ), 2)] : List (ℝ × ℝ)).getD 0 (0, 0)).2
            (([((5 : ℝ), 1)] : List (ℝ × ℝ)).getD 0 (0, 0)).2 +
          (if atan2 (([((5 : ℝ), 2)] : List (ℝ × ℝ)).getD 0 (0, 0)).2
              (([((5 : ℝ), 1)] : List (ℝ × ℝ)).getD 0 (0, 0)).2 < 0
            then 2 * Real.pi else 0)) ∧
    0 ≤ ((analytical_phase [((5 : ℝ), 1)] [((5 : ℝ), 2)]).getD 0 (0, 0)).2 ∧
    ((analytical_phase [((5 : ℝ), 1)] [((5 : ℝ), 2)]).getD 0 (0, 0)).2 < 2 * Real.pi) := by
  have hx : ∀ j : ℕ, j < ([((5 : ℝ), 1)] : List (ℝ × ℝ)).length →
      (([((5 : ℝ), 1)] : List (ℝ × ℝ)).getD j (0, 0)).1 =
        (([((5 : ℝ), 2)] : List (ℝ × ℝ)).getD j (0, 0)).1 := by
    intro j hj
    simp only [List.length_cons, List.length_nil] at hj
    have hj0 : j = 0 := by omega
    subst hj0
    rfl
  refine ⟨rfl, hx, by norm_num, ?_⟩
  exact phase_spec [((5 : ℝ), 1)] [((5 : ℝ), 2)] rfl hx 0 (by norm_num)

/-- C9: for every count, kernel and worker configuration (a pool whose
starmap obeys its library contract, or no pool at all), the runner returns
`[kernel 0, ..., kernel (count-1)]` in index order, and the pooled run equals
the sequential single-worker run. -/
theorem parallel_runner_spec {α β : Type} (count : ℕ) (uniforms : α)
    (func : ℕ → α → β) (pool : Option ((ℕ → α → β) → List (ℕ × α) → List β))
    (hp : PoolOK pool) :
    parallelize count uniforms func pool =
      (List.range count).map (fun i => func i uniforms) ∧
    parallelize count uniforms func pool = parallelize count uniforms func none := by
  have h1 := parallelize_eq count uniforms func pool hp
  have h2 := parallelize_eq count uniforms func none trivial
  exact ⟨h1, h1.trans h2.symm⟩

/-- C9 witness: a concrete three-job run with a contract-abiding pool. -/
theorem parallel_runner_spec_witness :
    PoolOK (some fun (f : ℕ → ℕ → ℕ) (args : List (ℕ × ℕ)) => args.map fun a => f a.1 a.2) ∧
    parallelize 3 (5 : ℕ) (fun i u => i + u)
        (some fun f args => args.map fun a => f a.1 a.2) =
      (List.range 3).map (fun i => i + 5) ∧
    parallelize 3 (5 : ℕ) (fun i u => i + u)
        (some fun f args => args.map fun a => f a.1 a.2) =
      parallelize 3 (5 : ℕ) (fun i u => i + u) none := by
  have hp : PoolOK (some fun (f : ℕ → ℕ → ℕ) (args : List (ℕ × ℕ)) =>
      args.map fun a => f a.1 a.2) := fun f args => rfl
  exact ⟨hp, parallel_runner_spec 3 5 (fun i u => i + u) _ hp⟩

end Polyfit
